import Mathlib

/-!
Shallow embedding of the snmp_cache repository (snmp_cache/cache.py and
snmp_cache/helpers.py): the schema store with its cross-MIB type
resolution pass (SnmpCache.load_mibs), the field formatter
(SnmpCache.__format_snmp_field), the index decoder
(SnmpCache._mib_table_index), the table resolver and the TTL cache
(SnmpCache.get_table).

Conventions of the embedding:
- Python dicts become association lists (first binding wins on lookup,
  in-place overwrite on assignment), keeping insertion / iteration order.
- Timestamps (time.time()) are rationals measured in seconds; cache ages
  are in minutes and are multiplied by 60 exactly where the code does.
- An uncaught Python exception (KeyError / TypeError / AttributeError /
  ValueError outside a try block) is modelled as Option.none, and as
  QErr.crash at the get_table level.
- Python int(s) is modelled for plain decimal digit strings only (the
  shapes produced by dotted-decimal OID suffixes).
-/

namespace SnmpModel

/-- Python str.lower for the ASCII strings used by the code. -/
def pyLower (s : String) : String := String.mk (s.toList.map Char.toLower)

/-- Python str.startswith. -/
def pyStartsWith (s p : String) : Bool := p.toList.isPrefixOf s.toList

/-- Python s.split(c) for a single-character separator, over the char list.
''.split('.') gives [''], matching the Python behaviour. -/
def splitOnCharAux (c : Char) : List Char → List (List Char)
  | [] => [[]]
  | x :: xs =>
    match splitOnCharAux c xs with
    | h :: t => if x = c then [] :: h :: t else (x :: h) :: t
    | [] => [[x]]

/-- Python value.split('.'). -/
def pySplitDot (s : String) : List String := (splitOnCharAux '.' s.toList).map String.mk

/-- Python '.'.join(l). -/
def joinDots : List String → String
  | [] => ""
  | h :: t => t.foldl (fun a b => a ++ "." ++ b) h

/-- Python ''.join(l). -/
def joinCat (l : List String) : String := l.foldl (fun a b => a ++ b) ""

/-- Python str.zfill(2) for unsigned inputs. -/
def zfill2 (s : String) : String := String.mk (List.replicate (2 - s.length) '0' ++ s.toList)

/-- hex(n)[2:] for n ≥ 0: lowercase hexadecimal digits, no 0x. -/
def natToHex (n : Nat) : String := String.mk (Nat.toDigits 16 n)

/-- str(n) for a nonnegative integer n. -/
def natToDec (n : Nat) : String := String.mk (Nat.toDigits 10 n)

/-- Python int(s), restricted to plain decimal digit strings; none models
ValueError (empty string or non-digit character). -/
def pyInt? (s : String) : Option Nat :=
  if s.toList ≠ [] ∧ s.toList.all Char.isDigit then
    some (s.toList.foldl (fun a c => a * 10 + (c.toNat - 48)) 0)
  else none

/-- UTF-8 continuation byte test. -/
def isContByte (b : Nat) : Bool := 128 ≤ b && b < 192

/-- Strict UTF-8 decoding of a byte list to chars; none models
UnicodeDecodeError (invalid lead/continuation byte, overlong form,
surrogate, out of range). -/
def utf8Chars : List Nat → Option (List Char)
  | [] => some []
  | b :: rest =>
    if b < 128 then (utf8Chars rest).map (fun cs => Char.ofNat b :: cs)
    else if 194 ≤ b && b ≤ 223 then
      match rest with
      | c1 :: rest2 =>
        if isContByte c1 then
          (utf8Chars rest2).map (fun cs => Char.ofNat ((b - 192) * 64 + (c1 - 128)) :: cs)
        else none
      | [] => none
    else if 224 ≤ b && b ≤ 239 then
      match rest with
      | c1 :: c2 :: rest3 =>
        if (if b = 224 then 160 ≤ c1 && c1 < 192
            else if b = 237 then 128 ≤ c1 && c1 < 160
            else isContByte c1) && isContByte c2 then
          (utf8Chars rest3).map
            (fun cs => Char.ofNat ((b - 224) * 4096 + (c1 - 128) * 64 + (c2 - 128)) :: cs)
        else none
      | _ => none
    else if 240 ≤ b && b ≤ 244 then
      match rest with
      | c1 :: c2 :: c3 :: rest4 =>
        if (if b = 240 then 144 ≤ c1 && c1 < 192
            else if b = 244 then 128 ≤ c1 && c1 < 144
            else isContByte c1) && isContByte c2 && isContByte c3 then
          (utf8Chars rest4).map
            (fun cs =>
              Char.ofNat ((b - 240) * 262144 + (c1 - 128) * 4096 + (c2 - 128) * 64 + (c3 - 128)) :: cs)
        else none
      | _ => none
    else none

/-- Python bytes.decode('utf-8'); none models UnicodeDecodeError. -/
def utf8Decode? (bs : List Nat) : Option String := (utf8Chars bs).map String.mk

/-- Association-list lookup modelling Python dict membership / indexing:
the first binding for the key wins. -/
def alookup {β : Type} (k : String) : List (String × β) → Option β
  | [] => none
  | (a, b) :: rest => if a = k then some b else alookup k rest

/-- Association-list assignment modelling Python dict item assignment:
overwrite the existing binding in place, else append. -/
def dictSet {β : Type} (m : List (String × β)) (k : String) (v : β) : List (String × β) :=
  match m with
  | [] => [(k, v)]
  | (a, b) :: rest => if a = k then (k, v) :: rest else (a, b) :: dictSet rest k v

/-- A raw value arriving from the SNMP transport (duck-typed in Python). -/
inductive RawVal where
  | bytes (bs : List Nat)
  | int (n : Int)
  | duration (ticks : Int)
  | ipv4 (s : String)
  | str (s : String)
deriving DecidableEq

/-- A value after field formatting / index decoding; enum models the
literal dict shape with a value and an enumeration label. -/
inductive FmtVal where
  | raw (v : RawVal)
  | str (s : String)
  | bool (b : Bool)
  | time (t : Rat)
  | enum (v : FmtVal) (label : String)
deriving DecidableEq

/-- The 'constraints' record of a syntax descriptor. -/
structure Constraints where
  enumeration : Option (List (String × Int))
deriving DecidableEq

/-- A syntax descriptor dict: 'class', 'type', optional 'constraints' and
a 'bits' mapping (absent modelled as []). -/
structure SynDesc where
  cls : Option String
  type : Option String
  constraints : Option Constraints
  bits : List (String × Int)
deriving DecidableEq

/-- One entry of a table's 'indices' list: 'module' and 'object'. -/
structure IndexRef where
  module : String
  object : String
deriving DecidableEq

/-- An object definition dict inside a MIB: 'class', 'oid', 'syntax'
(field syn), 'nodetype', 'indices', and the 'type' field of type
definitions (field tyField). -/
structure ObjDef where
  cls : Option String
  oid : Option String
  syn : Option SynDesc
  nodetype : Option String
  indices : Option (List IndexRef)
  tyField : Option SynDesc
deriving DecidableEq

/-- A parsed MIB file: its 'imports' dict (import key to list of imported
symbol names; the 'class' entry of the real JSON is never read because the
code excludes the key 'class' before touching the value) and the object
definitions, in insertion order. -/
structure MibContent where
  imports : List (String × List String)
  objects : List (String × ObjDef)
deriving DecidableEq

/-- The schema store self.mibs: MIB name to parsed content. -/
abbrev Store := List (String × MibContent)

/-- A resolved table row: field name to value. -/
abbrev Row := List (String × FmtVal)

/-- A raw row from the transport: OID-suffix key to raw value. -/
abbrev RawRow := List (String × RawVal)

/-- One cache entry, exactly the dict written by get_table. -/
structure CacheEntry where
  max_age : Rat
  query_time : Rat
  data : List Row
deriving DecidableEq

/-- The cache self._cache: MIB name to table name to entry. -/
abbrev Cache := List (String × List (String × CacheEntry))

/-- The instance configuration relevant to caching. -/
structure Config where
  cache_enabled : Bool
  max_cache_age : Rat
deriving DecidableEq

/-- Errors of a get_table call: the two ValueError schema checks, a
transport failure, the row-count ValueError, and an uncaught exception
inside resolution (crash). -/
inductive QErr where
  | schema
  | transport
  | rowCount
  | crash
deriving DecidableEq

/-- Result of a get_table call. -/
inductive QResult where
  | ok (rows : List Row)
  | err (e : QErr)
deriving DecidableEq

/-- Observable outcome of get_table: the returned value or error, the
cache afterwards, and whether the device was polled. -/
structure GetOut where
  result : QResult
  cache : Cache
  live : Bool
deriving DecidableEq

/-- Lookup of an object definition: self.mibs[m][o]. -/
def lookupObj (mibs : Store) (m o : String) : Option ObjDef :=
  (alookup m mibs).bind (fun c => alookup o c.objects)

/-- Cache lookup for a (mib, table) key. -/
def cacheLookup (c : Cache) (mib table : String) : Option CacheEntry :=
  (alookup mib c).bind (alookup table)

/-- helpers.mac_decimal_to_hex: split on '.', int() each octet, render as
2-digit lowercase hex, concatenate. none models the ValueError of int()
on an empty or non-numeric component. -/
def mac_decimal_to_hex (mac_str : String) : Option String :=
  (pySplitDot mac_str).foldlM
    (fun acc octet => (pyInt? octet).map (fun n => acc ++ zfill2 (natToHex n))) ""

/-- helpers.mac_binary_to_hex over the duck-typed argument: iterating a
bytes value yields ints and works; iterating anything else raises
(TypeError on int/timedelta/IPv4Address, hex() TypeError on str chars). -/
def mac_binary_to_hex : RawVal → Option String
  | .bytes bs => some (bs.foldl (fun acc b => acc ++ zfill2 (natToHex b)) "")
  | _ => none

/-- helpers.ip_binary_to_str over the duck-typed argument: an
IPv4Address is rendered with str(); bytes are joined with '.'; a str is
iterated per character (Python allows this, producing c1.c2...); other
shapes raise TypeError. -/
def ip_binary_to_str : RawVal → Option String
  | .ipv4 s => some s
  | .bytes bs => some (String.mk ((bs.foldl (fun a b => a ++ "." ++ natToDec b) "").toList.drop 1))
  | .str s => some (String.mk ((s.toList.foldl (fun a c => a ++ "." ++ String.mk [c]) "").toList.drop 1))
  | _ => none

/-- int.from_bytes(bs, 'big'). -/
def bytesToNatBE (bs : List Nat) : Nat := bs.foldl (fun a b => a * 256 + b) 0

/-- Python == between an int enumeration code and a formatted value:
ints compare numerically, bools compare as 0/1 (True == 1 in Python),
everything else compares unequal. -/
def pyEqIntFmt (code : Int) (v : FmtVal) : Bool :=
  match v with
  | .raw (.int n) => code = n
  | .bool b => code = (if b then 1 else 0)
  | _ => false

/-- Intermediate outcome of steps 1-4 of SnmpCache.__format_snmp_field:
early is a value returned before the constraints block (step-1 pass
through and both bits returns), cont is the return_value that falls
through to the constraints check. -/
inductive Resolved where
  | early (v : FmtVal)
  | cont (v : FmtVal)
deriving DecidableEq

/-- Steps 1-4 of SnmpCache.__format_snmp_field (everything before the
constraints block). none models an uncaught TypeError (iterating a
non-bytes value in the macaddress / inetaddress helpers, or
int.from_bytes on a non-bytes value in the bits branch). -/
def formatResolve (value : RawVal) (ms : SynDesc) : Option Resolved :=
  match ms.cls, ms.type with
  | none, _ => some (.early (.raw value))
  | some _, none => some (.early (.raw value))
  | some c, some t =>
    if pyLower c ≠ "type" then some (.early (.raw value))
    else
      let tl := pyLower t
      if tl = "macaddress" then
        (mac_binary_to_hex value).map (fun s => .cont (.str s))
      else if tl = "inetaddress" ∨ tl = "ipaddress" then
        (ip_binary_to_str value).map (fun s => .cont (.str s))
      else if tl = "truthvalue" then
        some (.cont (.bool (value = .int 1)))
      else if tl = "bits" then
        match value with
        | .bytes bs =>
          match ms.bits.find? (fun xy => xy.2 = (bytesToNatBE bs : Int)) with
          | some xy => some (.early (.enum (.raw value) xy.1))
          | none => some (.early (.raw value))
        | _ => none
      else
        match value with
        | .int _ => some (.cont (.raw value))
        | .duration _ => some (.cont (.raw value))
        | .bytes bs =>
          match utf8Decode? bs with
          | some s => some (.cont (.str s))
          | none => some (.cont (.raw value))
        | _ => some (.cont (.raw value))

/-- SnmpCache.__format_snmp_field: steps 1-4 then the constraints block,
which wraps the resolved value with the first enumeration label whose
code compares == to it. -/
def formatSnmpField (value : RawVal) (ms : SynDesc) : Option FmtVal :=
  match formatResolve value ms with
  | none => none
  | some (.early v) => some v
  | some (.cont rv) =>
    match ms.constraints with
    | some cs =>
      match cs.enumeration with
      | some es =>
        match es.find? (fun ki => pyEqIntFmt ki.2 rv) with
        | some ki => some (.enum rv ki.1)
        | none => some rv
      | none => some rv
    | none => some rv

/-- Python list slice l[pos:pos+n]. -/
def sliceRange (comps : List String) (pos n : Nat) : List String :=
  (comps.drop pos).take n

/-- value.split('.') on the duck-typed raw index value: only a str has a
split(str) method; on any other shape the call raises (AttributeError or
TypeError), which happens inside the branch try blocks. -/
def pySplitVal? : RawVal → Option (List String)
  | .str s => some (pySplitDot s)
  | _ => none

/-- Outcome of processing one index reference in
SnmpCache._mib_table_index: skip it (unknown module/object, cursor kept),
assign a field value and advance the cursor by w, stop with the row kept
(a caught parse failure whose except handler logged fine), or an
uncaught exception. -/
inductive IdxStep where
  | skip
  | assign (key : String) (v : FmtVal) (w : Nat)
  | stopOk
  | stopCrash
deriving DecidableEq

/-- The except-handler of the macaddress / inetaddress branches of
SnmpCache._mib_table_index: its log f-string evaluates
self.mibs[mib][mib_table]['indices'], so it logs and returns only when
that lookup chain succeeds; otherwise the handler itself raises
KeyError. -/
def idxFailTbl (mibs : Store) (mib tbl : String) : IdxStep :=
  if ((lookupObj mibs mib tbl).bind (fun o => o.indices)).isSome then .stopOk else .stopCrash

/-- The except-handler of the default (integer) branch of
SnmpCache._mib_table_index: its log f-string evaluates
self.mibs[mib]['mib_table']['indices'] — the literal string 'mib_table',
a mistyped variable reference — so it raises KeyError unless the MIB
happens to define an object literally named mib_table with an indices
field. -/
def idxFailInt (mibs : Store) (mib : String) : IdxStep :=
  if ((lookupObj mibs mib "mib_table").bind (fun o => o.indices)).isSome then .stopOk
  else .stopCrash

/-- The default (integer) branch of the index loop: consume one dotted
component and parse it with int(). -/
def idxIntStep (mibs : Store) (mib : String) (value : RawVal) (obj : String)
    (pos : Nat) : IdxStep :=
  match pySplitVal? value with
  | none => idxFailInt mibs mib
  | some comps =>
    match pyInt? (joinCat (sliceRange comps pos 1)) with
    | some n => .assign obj (.raw (.int n)) 1
    | none => idxFailInt mibs mib

/-- Processing of one index reference at cursor pos, following the
branch structure of SnmpCache._mib_table_index lines 171-199. -/
def decodeStep (mibs : Store) (mib tbl : String) (value : RawVal) (ti : IndexRef)
    (pos : Nat) : IdxStep :=
  match lookupObj mibs ti.module ti.object with
  | none => .skip
  | some odef =>
    match odef.syn with
    | none => .stopCrash
    | some sd =>
      match sd.cls with
      | none => .stopCrash
      | some c =>
        if c = "type" then
          match sd.type with
          | none => .stopCrash
          | some t =>
            if pyLower t = "macaddress" then
              match pySplitVal? value with
              | none => idxFailTbl mibs mib tbl
              | some comps =>
                match mac_decimal_to_hex (joinDots (sliceRange comps pos 6)) with
                | some hx => .assign ti.object (.str hx) 6
                | none => idxFailTbl mibs mib tbl
            else if pyLower t = "inetaddress" then
              match pySplitVal? value with
              | none => idxFailTbl mibs mib tbl
              | some comps =>
                .assign ti.object (.str (joinDots (sliceRange comps pos 4))) 4
            else idxIntStep mibs mib value ti.object pos
        else idxIntStep mibs mib value ti.object pos

/-- The loop of SnmpCache._mib_table_index over the indices list, with
the cursor index_pos made explicit; none models an uncaught exception. -/
def decodeIndices (mibs : Store) (mib tbl : String) (value : RawVal) :
    List IndexRef → Nat → Row → Option Row
  | [], _, row => some row
  | ti :: rest, pos, row =>
    match decodeStep mibs mib tbl value ti pos with
    | .skip => decodeIndices mibs mib tbl value rest pos row
    | .assign k v w => decodeIndices mibs mib tbl value rest (pos + w) (dictSet row k v)
    | .stopOk => some row
    | .stopCrash => none

/-- SnmpCache._mib_table_index: no-op unless the table definition has
nodetype row and an indices list, else decode from cursor 0. -/
def mibTableIndex (mibs : Store) (value : RawVal) (mib tbl : String) (row : Row) : Option Row :=
  match lookupObj mibs mib tbl with
  | none => none
  | some tdef =>
    match tdef.indices with
    | none => some row
    | some idxs =>
      if tdef.nodetype = some "row" then decodeIndices mibs mib tbl value idxs 0 row
      else some row

/-- The import-key filter of the load_mibs resolution pass: the key
'class' and keys starting with 'SNMP' are excluded as resolution
sources. -/
def eligibleImport (k : String) : Bool := k ≠ "class" && !(pyStartsWith k "SNMP")

/-- One iteration of the inner import loop of SnmpCache.load_mibs for an
object whose current syntax descriptor is syn: if the import is eligible
and declares the syntax's type name, and the imported MIB defines an
object of that name with a populated 'type' field, the syntax is
replaced by that 'type' value. none models the KeyError of
self.mibs[import_key] when the imported MIB declaring the symbol is not
loaded. Only 'syntax' fields are ever written by the pass and only MIB
presence, imports and 'type' fields are read, so reading from the
original store is equivalent to the in-place iteration of the code. -/
def stepImport (mibs : Store) (syn : SynDesc) (imp : String × List String) : Option SynDesc :=
  if eligibleImport imp.1 then
    match syn.type with
    | some t =>
      if t ∈ imp.2 then
        match alookup imp.1 mibs with
        | none => none
        | some c =>
          match alookup t c.objects with
          | some o =>
            match o.tyField with
            | some ty => some ty
            | none => some syn
          | none => some syn
      else some syn
    | none => some syn
  else some syn

/-- The per-object part of the load_mibs resolution pass: objects with
class objecttype whose syntax has class type run the import loop on
their syntax descriptor; every other object is left unchanged. -/
def resolveObjDef (mibs : Store) (imps : List (String × List String)) (o : ObjDef) : Option ObjDef :=
  match o.syn with
  | some s =>
    if o.cls = some "objecttype" ∧ s.cls = some "type" then
      (imps.foldlM (stepImport mibs) s).map (fun s2 => { o with syn := some s2 })
    else some o
  | none => some o

/-- The resolution pass over the object list of one MIB. -/
def resolveObjects (mibs : Store) (imps : List (String × List String)) :
    List (String × ObjDef) → Option (List (String × ObjDef))
  | [] => some []
  | (k, o) :: rest =>
    match resolveObjDef mibs imps o, resolveObjects mibs imps rest with
    | some o2, some rest2 => some ((k, o2) :: rest2)
    | _, _ => none

/-- The resolution pass over one MIB's content (its own imports drive the
inner loop). -/
def resolveMibContent (mibs : Store) (c : MibContent) : Option MibContent :=
  (resolveObjects mibs c.imports c.objects).map (fun objs => { c with objects := objs })

/-- The resolution pass mapped over a list of MIBs, reading from the
fixed store mibs. -/
def resolveStore (mibs : Store) : Store → Option Store
  | [] => some []
  | (name, c) :: rest =>
    match resolveMibContent mibs c, resolveStore mibs rest with
    | some c2, some rest2 => some ((name, c2) :: rest2)
    | _, _ => none

/-- The whole cross-MIB resolution pass at the end of
SnmpCache.load_mibs, over every loaded MIB. -/
def loadResolve (mibs : Store) : Option Store := resolveStore mibs mibs

/-- The per-row loop body of get_table: initialise the row with the
reserved _query_time field, then for each raw key/value pair take the
first object of the MIB whose absolute OID is tableOid.key (formatting
the value when the object has a syntax), else decode the synthetic index
key '0', else keep the raw pair with a warning. none models an uncaught
exception inside formatting or index decoding. -/
def resolveRow (mibs : Store) (content : MibContent) (mib tbl tableOid : String)
    (qt : Rat) (raw : RawRow) : Option Row :=
  raw.foldlM
    (fun row kv =>
      match content.objects.find? (fun mv => mv.2.oid = some (tableOid ++ "." ++ kv.1)) with
      | some mv =>
        match mv.2.syn with
        | some sd => (formatSnmpField kv.2 sd).map (fun fv => dictSet row mv.1 fv)
        | none => some (dictSet row mv.1 (.raw kv.2))
      | none =>
        if kv.1 = "0" then mibTableIndex mibs kv.2 mib tbl row
        else some (dictSet row kv.1 (.raw kv.2)))
    [("_query_time", FmtVal.time qt)]

/-- The row loop of get_table: one resolved row appended per raw row. -/
def resolveRows (mibs : Store) (content : MibContent) (mib tbl tableOid : String)
    (qt : Rat) : List RawRow → Option (List Row)
  | [] => some []
  | r :: rs =>
    match resolveRow mibs content mib tbl tableOid qt r,
          resolveRows mibs content mib tbl tableOid qt rs with
    | some row, some rest => some (row :: rest)
    | _, _ => none

/-- The defensive post-condition check of get_table:
len(table_data) == len(raw_rows). -/
def rowCountOk (tdata : List Row) (raws : List RawRow) : Bool := tdata.length = raws.length

/-- The cache update of get_table: self._cache[mib] is created when
absent (transiently as table: empty dict, immediately overwritten), then
self._cache[mib][table] is replaced wholesale. -/
def dictSet2 (c : Cache) (mib tbl : String) (e : CacheEntry) : Cache :=
  match alookup mib c with
  | none => dictSet c mib [(tbl, e)]
  | some inner => dictSet c mib (dictSet inner tbl e)

/-- The cache-hit decision of get_table lines 92-98: with caching enabled
and allow_cached, an existing entry whose query_time beats
now - min(max_cache_age, entry max_age)*60 is served from cache. -/
def cacheHit (cfg : Config) (cache : Cache) (mib tbl : String) (allow_cached : Bool)
    (now : Rat) : Option (List Row) :=
  if cfg.cache_enabled && allow_cached then
    match cacheLookup cache mib tbl with
    | some e =>
      if e.query_time > now - min cfg.max_cache_age e.max_age * 60 then some e.data
      else none
    | none => none
  else none

/-- SnmpCache.get_table. Arguments now and qt are the time() values of
the freshness check and of the query; transport is the outcome of the
device poll (none models a raising transport call). live records whether
the device was polled. -/
def getTable (cfg : Config) (mibs : Store) (cache : Cache) (mib tbl : String)
    (allow_cached : Bool) (query_cache_max_age : Rat) (now : Rat)
    (transport : Option (List RawRow)) (qt : Rat) : GetOut :=
  match cacheHit cfg cache mib tbl allow_cached now with
  | some d => ⟨.ok d, cache, false⟩
  | none =>
    match alookup mib mibs with
    | none => ⟨.err .schema, cache, false⟩
    | some content =>
      match alookup tbl content.objects with
      | none => ⟨.err .schema, cache, false⟩
      | some tdef =>
        match tdef.oid with
        | none => ⟨.err .crash, cache, false⟩
        | some tableOid =>
          match transport with
          | none => ⟨.err .transport, cache, true⟩
          | some raws =>
            match resolveRows mibs content mib tbl tableOid qt raws with
            | none => ⟨.err .crash, cache, true⟩
            | some tdata =>
              if rowCountOk tdata raws then
                if cfg.cache_enabled then
                  ⟨.ok tdata, dictSet2 cache mib tbl ⟨query_cache_max_age, qt, tdata⟩, true⟩
                else ⟨.ok tdata, cache, true⟩
              else ⟨.err .rowCount, cache, true⟩

/-! Association-list lemmas. -/

theorem alookup_dictSet_self {β : Type} (m : List (String × β)) (k : String) (v : β) :
    alookup k (dictSet m k v) = some v := by
  induction m with
  | nil => simp [dictSet, alookup]
  | cons h t ih =>
    obtain ⟨a, b⟩ := h
    by_cases hak : a = k
    · simp [dictSet, hak, alookup]
    · simp [dictSet, hak, alookup, ih]

theorem alookup_dictSet_ne {β : Type} (m : List (String × β)) (k x : String) (v : β)
    (h : k ≠ x) : alookup x (dictSet m k v) = alookup x m := by
  induction m with
  | nil => simp [dictSet, alookup, h]
  | cons hd t ih =>
    obtain ⟨a, b⟩ := hd
    by_cases hak : a = k
    · subst hak
      simp [dictSet, alookup, h]
    · simp [dictSet, hak, alookup, ih]

theorem cacheLookup_dictSet2_self (c : Cache) (mib tbl : String) (e : CacheEntry) :
    cacheLookup (dictSet2 c mib tbl e) mib tbl = some e := by
  unfold dictSet2 cacheLookup
  cases h : alookup mib c with
  | none => simp [alookup_dictSet_self, alookup]
  | some inner => simp [alookup_dictSet_self, alookup_dictSet_self inner tbl e]

/-! The row loop produces exactly one resolved row per raw row. -/

theorem resolveRows_length (mibs : Store) (content : MibContent) (mib tbl tableOid : String)
    (qt : Rat) : ∀ (raws : List RawRow) (out : List Row),
    resolveRows mibs content mib tbl tableOid qt raws = some out → out.length = raws.length := by
  intro raws
  induction raws with
  | nil => intro out h; simp [resolveRows] at h; simp [← h]
  | cons r rs ih =>
    intro out h
    unfold resolveRows at h
    cases h1 : resolveRow mibs content mib tbl tableOid qt r with
    | none => rw [h1] at h; exact absurd h (by simp)
    | some row =>
      cases h2 : resolveRows mibs content mib tbl tableOid qt rs with
      | none => rw [h1, h2] at h; exact absurd h (by simp)
      | some rest =>
        rw [h1, h2] at h
        cases h
        simp [ih rest h2]

/-! Claim C1. -/

/-- Claim C1: with caching enabled and allow_cached true, get_table
returns the cached data without polling the device exactly when the
entry is fresh, i.e. now - query_time < min(max_cache_age, max_age)
minutes (times in seconds, ages in minutes, hence the factor 60). -/
theorem c1_cache_freshness (cfg : Config) (mibs : Store) (cache : Cache)
    (mib tbl : String) (qmax now qt : Rat) (tr : Option (List RawRow)) (e : CacheEntry)
    (hce : cfg.cache_enabled = true)
    (he : cacheLookup cache mib tbl = some e) :
    ((getTable cfg mibs cache mib tbl true qmax now tr qt).live = false ∧
     (getTable cfg mibs cache mib tbl true qmax now tr qt).result = .ok e.data)
    ↔ now - e.query_time < min cfg.max_cache_age e.max_age * 60 := by
  unfold getTable cacheHit
  simp only [hce, he, Bool.and_self, eq_self_iff_true, if_true]
  by_cases hf : e.query_time > now - min cfg.max_cache_age e.max_age * 60
  · simp only [if_pos hf]
    constructor
    · intro _; linarith
    · intro _; simp
  · simp only [if_neg hf]
    have hrhs : ¬ (now - e.query_time < min cfg.max_cache_age e.max_age * 60) := by
      intro hc; exact hf (by linarith)
    apply iff_of_false _ hrhs
    intro hl
    obtain ⟨hlive, hres⟩ := hl
    cases h1 : alookup mib mibs with
    | none => simp [h1] at hres
    | some content =>
      cases h2 : alookup tbl content.objects with
      | none => simp [h1, h2] at hres
      | some tdef =>
        cases h3 : tdef.oid with
        | none => simp [h1, h2, h3] at hres
        | some tableOid =>
          cases h4 : tr with
          | none => simp [h1, h2, h3, h4] at hlive
          | some raws =>
            cases h5 : resolveRows mibs content mib tbl tableOid qt raws with
            | none => simp [h1, h2, h3, h4, h5] at hlive
            | some tdata =>
              by_cases h6 : rowCountOk tdata raws = true
              · by_cases h7 : cfg.cache_enabled = true
                · simp [h1, h2, h3, h4, h5, h6, h7] at hlive
                · simp [h1, h2, h3, h4, h5, h6, h7] at hlive
              · simp [h1, h2, h3, h4, h5, h6] at hlive

/-- A minimal schema store with one MIB m holding one table t: enough
for get_table to pass its schema checks and resolve an empty row list. -/
def exStore1 : Store :=
  [("m", ⟨[], [("t", ⟨none, some "1.2", none, none, none, none⟩)]⟩)]

/-- A cache entry written at t0 = 0 with entry max_age 10 minutes. -/
def exEntry6 : CacheEntry := ⟨10, 0, []⟩

def exCache1 : Cache := [("m", [("t", exEntry6)])]

/-- Configuration with caching enabled and global max_cache_age 5. -/
def exCfgOn5 : Config := ⟨true, 5⟩

/-- Witness for C1, instantiating the spec scenario: entry written at
t0 = 0 with max_age 10, global max_cache_age 5, read at t0 + 360 s with
allow_cached: the entry is not fresh, so the call is not a cache hit. -/
theorem c1_cache_freshness_witness :
    ¬ (((getTable exCfgOn5 exStore1 exCache1 "m" "t" true 10 360 (some []) 360).live = false) ∧
       (getTable exCfgOn5 exStore1 exCache1 "m" "t" true 10 360 (some []) 360).result =
         .ok exEntry6.data) := by
  intro hl
  have h := (c1_cache_freshness exCfgOn5 exStore1 exCache1 "m" "t" 10 360 360 (some [])
    exEntry6 rfl (by decide)).mp hl
  rw [show exEntry6.query_time = 0 from rfl, show exEntry6.max_age = 10 from rfl,
    show exCfgOn5.max_cache_age = 5 from rfl] at h
  norm_num [min_def] at h

/-- Every outcome of get_table: a cache hit (cache unchanged, device not
polled), a successful live query (entry replaced when caching is
enabled, cache untouched when disabled), or an error with the cache
unchanged. -/
theorem getTable_classify (cfg : Config) (mibs : Store) (cache : Cache) (mib tbl : String)
    (ac : Bool) (qmax now qt : Rat) (tr : Option (List RawRow)) :
    (∃ d, getTable cfg mibs cache mib tbl ac qmax now tr qt = ⟨.ok d, cache, false⟩)
  ∨ (∃ d, getTable cfg mibs cache mib tbl ac qmax now tr qt =
        ⟨.ok d, dictSet2 cache mib tbl ⟨qmax, qt, d⟩, true⟩ ∧ cfg.cache_enabled = true)
  ∨ (∃ d, getTable cfg mibs cache mib tbl ac qmax now tr qt = ⟨.ok d, cache, true⟩ ∧
        cfg.cache_enabled = false)
  ∨ (∃ e b, getTable cfg mibs cache mib tbl ac qmax now tr qt = ⟨.err e, cache, b⟩) := by
  unfold getTable
  repeat' split
  all_goals first
    | exact Or.inl ⟨_, rfl⟩
    | exact Or.inr (Or.inl ⟨_, rfl, by assumption⟩)
    | exact Or.inr (Or.inr (Or.inl ⟨_, rfl, by simp_all⟩))
    | exact Or.inr (Or.inr (Or.inr ⟨_, _, rfl⟩))

/-! Claim C3. -/

/-- Claim C3: a get_table call that aborts with the schema ValueError,
a transport failure or the row-count mismatch leaves the cache map
exactly as it was before the call. -/
theorem c3_errors_preserve_cache (cfg : Config) (mibs : Store) (cache : Cache)
    (mib tbl : String) (ac : Bool) (qmax now qt : Rat) (tr : Option (List RawRow)) (e : QErr)
    (hkind : e = .schema ∨ e = .transport ∨ e = .rowCount)
    (hres : (getTable cfg mibs cache mib tbl ac qmax now tr qt).result = .err e) :
    (getTable cfg mibs cache mib tbl ac qmax now tr qt).cache = cache := by
  rcases getTable_classify cfg mibs cache mib tbl ac qmax now qt tr with
    ⟨d, h⟩ | ⟨d, h, hc⟩ | ⟨d, h, hc⟩ | ⟨e2, b, h⟩
  · rw [h] at hres; exact absurd hres (by simp)
  · rw [h] at hres; exact absurd hres (by simp)
  · rw [h] at hres; exact absurd hres (by simp)
  · rw [h]

/-- Witness for C3: an unknown MIB aborts with the schema error and the
pre-existing cache survives unchanged. -/
theorem c3_errors_preserve_cache_witness :
    (getTable exCfgOn5 [] exCache1 "z" "t" true 10 0 none 0).cache = exCache1 :=
  c3_errors_preserve_cache exCfgOn5 [] exCache1 "z" "t" true 10 0 0 none QErr.schema
    (Or.inl rfl) (by decide)

/-! Claim C2. -/

/-- Configuration with caching disabled globally. -/
def exCfgOff : Config := ⟨false, 10⟩

/-- Counterexample to C2 as stated: with caching disabled globally, a
live query is performed and succeeds, yet get_table writes no cache
entry at all — afterwards the key holds nothing, not the claimed
record {max_age, query_time, data}. -/
theorem c2_counterexample :
    (getTable exCfgOff exStore1 [] "m" "t" true 10 0 (some []) 7).live = true ∧
    (getTable exCfgOff exStore1 [] "m" "t" true 10 0 (some []) 7).result = .ok [] ∧
    cacheLookup (getTable exCfgOff exStore1 [] "m" "t" true 10 0 (some []) 7).cache "m" "t"
      ≠ some ⟨10, 7, []⟩ := by
  decide

/-- Claim C2 amended: after a live query that succeeds, the cache entry
for the key is exactly the record {max_age := requested max age,
query_time := query time, data := resolved rows} — provided caching is
enabled globally; when caching is disabled the cache is left entirely
unchanged (no entry is written). -/
theorem c2_live_replaces_entry (cfg : Config) (mibs : Store) (cache : Cache)
    (mib tbl : String) (ac : Bool) (qmax now qt : Rat) (tr : Option (List RawRow))
    (tdata : List Row)
    (hlive : (getTable cfg mibs cache mib tbl ac qmax now tr qt).live = true)
    (hok : (getTable cfg mibs cache mib tbl ac qmax now tr qt).result = .ok tdata) :
    (cfg.cache_enabled = true →
       cacheLookup (getTable cfg mibs cache mib tbl ac qmax now tr qt).cache mib tbl =
         some ⟨qmax, qt, tdata⟩) ∧
    (cfg.cache_enabled = false →
       (getTable cfg mibs cache mib tbl ac qmax now tr qt).cache = cache) := by
  rcases getTable_classify cfg mibs cache mib tbl ac qmax now qt tr with
    ⟨d, h⟩ | ⟨d, h, hc⟩ | ⟨d, h, hc⟩ | ⟨e, b, h⟩
  · rw [h] at hlive; exact absurd hlive (by simp)
  · rw [h] at hok
    have hd : d = tdata := by simpa using hok
    subst hd
    refine ⟨fun _ => ?_, fun hcf => absurd hc (by simp [hcf])⟩
    rw [h]
    exact cacheLookup_dictSet2_self cache mib tbl ⟨qmax, qt, d⟩
  · refine ⟨fun hcf => absurd hc (by simp [hcf]), fun _ => by rw [h]⟩
  · rw [h] at hok; exact absurd hok (by simp)

/-- Witness for the amended C2: a live query (allow_cached false) with
caching enabled replaces the entry with exactly the written record. -/
theorem c2_live_replaces_entry_witness :
    cacheLookup (getTable exCfgOn5 exStore1 [] "m" "t" false 10 0 (some []) 7).cache "m" "t" =
      some ⟨10, 7, []⟩ :=
  (c2_live_replaces_entry exCfgOn5 exStore1 [] "m" "t" false 10 0 7 (some []) []
    (by decide) (by decide)).1 rfl

/-! Claim C7. -/

/-- Claim C7: the resolver produces exactly one resolved row per raw
row, so the defensive row-count check always passes and get_table can
never fail with the row-count mismatch; the check itself does fail on a
mismatched pair such as 2 produced rows against 3 raw rows. -/
theorem c7_row_count_invariant :
    (∀ (mibs : Store) (content : MibContent) (mib tbl tableOid : String) (qt : Rat)
       (raws : List RawRow) (out : List Row),
       resolveRows mibs content mib tbl tableOid qt raws = some out →
       rowCountOk out raws = true)
  ∧ rowCountOk (List.replicate 2 []) (List.replicate 3 []) = false
  ∧ (∀ (cfg : Config) (mibs : Store) (cache : Cache) (mib tbl : String) (ac : Bool)
       (qmax now qt : Rat) (tr : Option (List RawRow)),
       (getTable cfg mibs cache mib tbl ac qmax now tr qt).result ≠ .err .rowCount) := by
  refine ⟨?_, by decide, ?_⟩
  · intro mibs content mib tbl tableOid qt raws out h
    have hlen := resolveRows_length mibs content mib tbl tableOid qt raws out h
    simp [rowCountOk, hlen]
  · intro cfg mibs cache mib tbl ac qmax now qt tr hcontra
    cases h0 : cacheHit cfg cache mib tbl ac now with
    | some d => simp [getTable, h0] at hcontra
    | none =>
      cases h1 : alookup mib mibs with
      | none => simp [getTable, h0, h1] at hcontra
      | some content =>
        cases h2 : alookup tbl content.objects with
        | none => simp [getTable, h0, h1, h2] at hcontra
        | some tdef =>
          cases h3 : tdef.oid with
          | none => simp [getTable, h0, h1, h2, h3] at hcontra
          | some tableOid =>
            cases h4 : tr with
            | none => simp [getTable, h0, h1, h2, h3, h4] at hcontra
            | some raws =>
              cases h5 : resolveRows mibs content mib tbl tableOid qt raws with
              | none => simp [getTable, h0, h1, h2, h3, h4, h5] at hcontra
              | some tdata =>
                have hlen := resolveRows_length mibs content mib tbl tableOid qt raws tdata h5
                have h6 : rowCountOk tdata raws = true := by simp [rowCountOk, hlen]
                by_cases h7 : cfg.cache_enabled = true
                · simp [getTable, h0, h1, h2, h3, h4, h5, h6, h7] at hcontra
                · simp [getTable, h0, h1, h2, h3, h4, h5, h6, h7] at hcontra

/-- Witness for C7: one empty raw row resolves to one row carrying only
the reserved timestamp field, and the row-count check passes on it. -/
theorem c7_row_count_invariant_witness :
    rowCountOk [[("_query_time", FmtVal.time 0)]] [([] : RawRow)] = true :=
  c7_row_count_invariant.1 [] ⟨[], []⟩ "m" "t" "1.2" 0 [[]]
    [[("_query_time", FmtVal.time 0)]] rfl

/-! Lemmas about the cross-MIB resolution pass. -/

theorem stepImport_ineligible (mibs : Store) (s : SynDesc) (k : String) (syms : List String)
    (h : eligibleImport k = false) : stepImport mibs s (k, syms) = some s := by
  simp [stepImport, h]

theorem stepImport_notmem (mibs : Store) (s : SynDesc) (k : String) (syms : List String)
    (t : String) (ht : s.type = some t) (h : t ∉ syms) :
    stepImport mibs s (k, syms) = some s := by
  unfold stepImport
  split
  · simp [ht, h]
  · rfl

theorem stepImport_noType (mibs : Store) (s : SynDesc) (k : String) (syms : List String)
    (ht : s.type = none) : stepImport mibs s (k, syms) = some s := by
  unfold stepImport
  split
  · simp [ht]
  · rfl

theorem foldlM_stepImport_id (mibs : Store) (s : SynDesc) (l : List (String × List String))
    (h : ∀ imp ∈ l, stepImport mibs s imp = some s) :
    l.foldlM (stepImport mibs) s = some s := by
  induction l with
  | nil => rfl
  | cons a t ih =>
    rw [List.foldlM_cons, h a (List.mem_cons_self a t)]
    exact ih (fun imp hi => h imp (List.mem_cons_of_mem a hi))

/-- The outer-loop trigger of the resolution pass: class objecttype with
a syntax of class type. -/
def objTrigger (o : ObjDef) : Bool :=
  match o.syn with
  | some s => decide (o.cls = some "objecttype") && decide (s.cls = some "type")
  | none => false

theorem resolveObjDef_id (mibs : Store) (imps : List (String × List String)) (o : ObjDef)
    (h : objTrigger o = false) : resolveObjDef mibs imps o = some o := by
  unfold resolveObjDef
  split
  · rename_i s hs
    split
    · rename_i hc
      exfalso
      unfold objTrigger at h
      simp only [hs] at h
      simp [hc.1, hc.2] at h
    · rfl
  · rfl

theorem resolveObjects_id (mibs : Store) (imps : List (String × List String))
    (l : List (String × ObjDef)) (h : ∀ p ∈ l, objTrigger p.2 = false) :
    resolveObjects mibs imps l = some l := by
  induction l with
  | nil => rfl
  | cons a t ih =>
    unfold resolveObjects
    rw [resolveObjDef_id mibs imps a.2 (h a (List.mem_cons_self a t)),
      ih (fun p hp => h p (List.mem_cons_of_mem a hp))]

theorem resolveStore_id (mibs : Store) (s : Store)
    (h : ∀ p ∈ s, ∀ q ∈ p.2.objects, objTrigger q.2 = false) :
    resolveStore mibs s = some s := by
  induction s with
  | nil => rfl
  | cons a t ih =>
    unfold resolveStore
    have hc : resolveMibContent mibs a.2 = some a.2 := by
      unfold resolveMibContent
      rw [resolveObjects_id mibs a.2.imports a.2.objects
        (fun q hq => h a (List.mem_cons_self a t) q hq)]
      rfl
    rw [hc, ih (fun p hp => h p (List.mem_cons_of_mem a hp))]

theorem resolveObjects_alookup (mibs : Store) (imps : List (String × List String)) :
    ∀ (l l2 : List (String × ObjDef)) (k : String) (o : ObjDef),
    resolveObjects mibs imps l = some l2 → alookup k l = some o →
    ∃ o2, resolveObjDef mibs imps o = some o2 ∧ alookup k l2 = some o2 := by
  intro l
  induction l with
  | nil => intro l2 k o _ hk; simp [alookup] at hk
  | cons a t ih =>
    intro l2 k o hl hk
    obtain ⟨ka, oa⟩ := a
    unfold resolveObjects at hl
    cases h1 : resolveObjDef mibs imps oa with
    | none => rw [h1] at hl; exact absurd hl (by simp)
    | some o2a =>
      cases h2 : resolveObjects mibs imps t with
      | none => rw [h1, h2] at hl; exact absurd hl (by simp)
      | some t2 =>
        rw [h1, h2] at hl
        cases hl
        unfold alookup at hk ⊢
        by_cases hka : ka = k
        · rw [if_pos hka] at hk ⊢
          cases hk
          exact ⟨o2a, h1, rfl⟩
        · rw [if_neg hka] at hk ⊢
          exact ih t2 k o h2 hk

theorem resolveStore_alookup (mibs : Store) :
    ∀ (s s2 : Store) (m : String) (c : MibContent),
    resolveStore mibs s = some s2 → alookup m s = some c →
    ∃ c2, resolveMibContent mibs c = some c2 ∧ alookup m s2 = some c2 := by
  intro s
  induction s with
  | nil => intro s2 m c _ hm; simp [alookup] at hm
  | cons a t ih =>
    intro s2 m c hs hm
    obtain ⟨ma, ca⟩ := a
    unfold resolveStore at hs
    cases h1 : resolveMibContent mibs ca with
    | none => rw [h1] at hs; exact absurd hs (by simp)
    | some c2a =>
      cases h2 : resolveStore mibs t with
      | none => rw [h1, h2] at hs; exact absurd hs (by simp)
      | some t2 =>
        rw [h1, h2] at hs
        cases hs
        unfold alookup at hm ⊢
        by_cases hma : ma = m
        · rw [if_pos hma] at hm ⊢
          cases hm
          exact ⟨c2a, h1, rfl⟩
        · rw [if_neg hma] at hm ⊢
          exact ih t2 m c h2 hm

/-! Claim C8. -/

/-- A syntax descriptor of class type referencing Foo. -/
def synFoo : SynDesc := ⟨some "type", some "Foo", none, []⟩

/-- The 'type' field of B's Foo: itself a class-type reference to Foo2. -/
def tyFoo2 : SynDesc := ⟨some "type", some "Foo2", none, []⟩

/-- The 'type' field of B's Foo2. -/
def tyBase : SynDesc := ⟨some "type", some "Base", none, []⟩

/-- An objecttype object whose syntax references the imported type Foo. -/
def objO : ObjDef := ⟨some "objecttype", none, some synFoo, none, none, none⟩

/-- Store for the C8 counterexample: A imports Foo and Foo2 from B,
B's Foo has a 'type' field that is itself a reference to Foo2. -/
def exStore8 : Store :=
  [("A", ⟨[("B", ["Foo", "Foo2"])], [("O", objO)]⟩),
   ("B", ⟨[], [("Foo", ⟨none, none, none, none, none, some tyFoo2⟩),
               ("Foo2", ⟨none, none, none, none, none, some tyBase⟩)]⟩)]

/-- exStore8 after one resolution pass: O's syntax became the Foo2
reference (the import loop had already moved past B's entry). -/
def exStore8r1 : Store :=
  [("A", ⟨[("B", ["Foo", "Foo2"])], [("O", ⟨some "objecttype", none, some tyFoo2, none, none, none⟩)]⟩),
   ("B", ⟨[], [("Foo", ⟨none, none, none, none, none, some tyFoo2⟩),
               ("Foo2", ⟨none, none, none, none, none, some tyBase⟩)]⟩)]

/-- exStore8 after two resolution passes: the second pass resolved the
chained Foo2 reference further. -/
def exStore8r2 : Store :=
  [("A", ⟨[("B", ["Foo", "Foo2"])], [("O", ⟨some "objecttype", none, some tyBase, none, none, none⟩)]⟩),
   ("B", ⟨[], [("Foo", ⟨none, none, none, none, none, some tyFoo2⟩),
               ("Foo2", ⟨none, none, none, none, none, some tyBase⟩)]⟩)]

/-- Counterexample to C8 as stated: the resolution pass runs
successfully on exStore8, yet running it a second time on the result
changes object O again (a chained type reference resolves one more
step), so the pass is not idempotent. -/
theorem c8_counterexample :
    loadResolve exStore8 = some exStore8r1 ∧
    loadResolve exStore8r1 = some exStore8r2 ∧
    exStore8r1 ≠ exStore8r2 := by
  refine ⟨by decide, by decide, by decide⟩

/-- Claim C8 amended: the resolution pass is idempotent on stores in
which no object still matches the resolution trigger (class objecttype
with a syntax of class type); when the first pass leaves such an object
— a resolved syntax can itself be a class-type reference to some other
resolvable symbol — a second run may resolve chained references further. -/
theorem c8_resolution_idempotent_when_settled (s s2 : Store)
    (hrun : loadResolve s = some s2)
    (hdone : ∀ p ∈ s2, ∀ q ∈ p.2.objects, objTrigger q.2 = false) :
    loadResolve s2 = some s2 :=
  resolveStore_id s2 s2 hdone

/-- Store for the C8 witness: B's Foo resolves to a terminal descriptor
whose class is not type, so the resolved store has no trigger left. -/
def exStore8w : Store :=
  [("A", ⟨[("B", ["Foo"])], [("O", objO)]⟩),
   ("B", ⟨[], [("Foo", ⟨none, none, none, none, none, some ⟨some "plain", some "Base", none, []⟩⟩)]⟩)]

/-- exStore8w after the resolution pass. -/
def exStore8wr : Store :=
  [("A", ⟨[("B", ["Foo"])], [("O", ⟨some "objecttype", none, some ⟨some "plain", some "Base", none, []⟩, none, none, none⟩)]⟩),
   ("B", ⟨[], [("Foo", ⟨none, none, none, none, none, some ⟨some "plain", some "Base", none, []⟩⟩)]⟩)]

/-- Witness for the amended C8: after a successful pass that leaves no
trigger, a second run is the identity. -/
theorem c8_resolution_idempotent_when_settled_witness :
    loadResolve exStore8wr = some exStore8wr :=
  c8_resolution_idempotent_when_settled exStore8w exStore8wr (by decide) (by decide)

/-! Claim C4. -/

/-- The 'type' field of BMIB's Foo (a reference to the unimported TB). -/
def tyB : SynDesc := ⟨some "type", some "TB", none, []⟩

/-- The 'type' field of CMIB's Foo, different from tyB. -/
def tyC : SynDesc := ⟨some "type", some "TC", none, []⟩

/-- MIB A for the C4 counterexample: it imports Foo both from BMIB and
from CMIB (both eligible sources defining Foo with a populated type). -/
def exMibA4 : MibContent := ⟨[("BMIB", ["Foo"]), ("CMIB", ["Foo"])], [("O", objO)]⟩

def exStore4 : Store :=
  [("A", exMibA4),
   ("BMIB", ⟨[], [("Foo", ⟨none, none, none, none, none, some tyB⟩)]⟩),
   ("CMIB", ⟨[], [("Foo", ⟨none, none, none, none, none, some tyC⟩)]⟩)]

/-- exStore4 after the resolution pass: BMIB, iterated first, won. -/
def exStore4r : Store :=
  [("A", ⟨[("BMIB", ["Foo"]), ("CMIB", ["Foo"])], [("O", ⟨some "objecttype", none, some tyB, none, none, none⟩)]⟩),
   ("BMIB", ⟨[], [("Foo", ⟨none, none, none, none, none, some tyB⟩)]⟩),
   ("CMIB", ⟨[], [("Foo", ⟨none, none, none, none, none, some tyC⟩)]⟩)]

/-- Counterexample to C4 as stated: instantiated with A := A and
B := CMIB, every hypothesis of the claim holds (A's imports contain an
eligible entry for CMIB declaring Foo, CMIB defines Foo with a populated
type field, A's object O has class objecttype and syntax class type
referencing Foo), yet after the pass O's syntax is BMIB's definition,
not CMIB's: the first matching import in iteration order wins. -/
theorem c4_counterexample :
    (("CMIB", ["Foo"]) ∈ exMibA4.imports ∧ eligibleImport "CMIB" = true ∧
     (lookupObj exStore4 "CMIB" "Foo").bind (fun o => o.tyField) = some tyC ∧
     lookupObj exStore4 "A" "O" = some objO ∧ objO.cls = some "objecttype" ∧
     objO.syn = some synFoo ∧ synFoo.cls = some "type" ∧ synFoo.type = some "Foo") ∧
    loadResolve exStore4 = some exStore4r ∧
    lookupObj exStore4r "A" "O" = some { objO with syn := some tyB } ∧
    tyB ≠ tyC := by
  refine ⟨by decide, by decide, by decide, by decide⟩

/-- Claim C4 amended: the conclusion holds when B's entry is the
first import of A, in iteration order, that is eligible and declares
the symbol; earlier eligible imports must not declare it and no later
eligible import may declare the type name of B's resolved descriptor
(the import loop keeps running on the replaced syntax). Under those
conditions, after the pass the object's syntax equals B's definition of
the symbol's type field; and imports named class or prefixed SNMP are
never used as resolution sources (second conjunct). -/
theorem c4_import_resolution_amended (mibs mibs2 : Store) (aName bName objName tyName : String)
    (cA cB : MibContent) (o oFoo : ObjDef) (s0 ty : SynDesc)
    (pre post : List (String × List String)) (symsB : List String)
    (hA : alookup aName mibs = some cA)
    (hImps : cA.imports = pre ++ (bName, symsB) :: post)
    (hBelig : eligibleImport bName = true)
    (hBdecl : tyName ∈ symsB)
    (hpre : ∀ p ∈ pre, eligibleImport p.1 = true → tyName ∉ p.2)
    (hB : alookup bName mibs = some cB)
    (hFoo : alookup tyName cB.objects = some oFoo)
    (hty : oFoo.tyField = some ty)
    (hpost : ∀ p ∈ post, eligibleImport p.1 = true → ∀ u, ty.type = some u → u ∉ p.2)
    (hobj : alookup objName cA.objects = some o)
    (hcls : o.cls = some "objecttype")
    (hsyn : o.syn = some s0)
    (hs0c : s0.cls = some "type")
    (hs0t : s0.type = some tyName)
    (hload : loadResolve mibs = some mibs2) :
    lookupObj mibs2 aName objName = some { o with syn := some ty } ∧
    (∀ (s : SynDesc) (k : String) (syms : List String), eligibleImport k = false →
       stepImport mibs s (k, syms) = some s) := by
  refine ⟨?_, fun s k syms hk => stepImport_ineligible mibs s k syms hk⟩
  have hstep : stepImport mibs s0 (bName, symsB) = some ty := by
    unfold stepImport
    simp [hBelig, hs0t, hBdecl, hB, hFoo, hty]
  have hpre2 : ∀ imp ∈ pre, stepImport mibs s0 imp = some s0 := by
    intro imp hi
    by_cases he : eligibleImport imp.1 = true
    · exact stepImport_notmem mibs s0 imp.1 imp.2 tyName hs0t (hpre imp hi he)
    · exact stepImport_ineligible mibs s0 imp.1 imp.2 (by simpa using he)
  have hpost2 : ∀ imp ∈ post, stepImport mibs ty imp = some ty := by
    intro imp hi
    by_cases he : eligibleImport imp.1 = true
    · cases hu : ty.type with
      | none => exact stepImport_noType mibs ty imp.1 imp.2 hu
      | some u => exact stepImport_notmem mibs ty imp.1 imp.2 u hu (hpost imp hi he u hu)
    · exact stepImport_ineligible mibs ty imp.1 imp.2 (by simpa using he)
  have hfold : cA.imports.foldlM (stepImport mibs) s0 = some ty := by
    rw [hImps, List.foldlM_append, foldlM_stepImport_id mibs s0 pre hpre2]
    simp only [bind, Option.bind]
    rw [List.foldlM_cons, hstep]
    simp only [bind, Option.bind]
    exact foldlM_stepImport_id mibs ty post hpost2
  have hobjdef : resolveObjDef mibs cA.imports o = some { o with syn := some ty } := by
    unfold resolveObjDef
    simp only [hsyn]
    rw [if_pos ⟨hcls, hs0c⟩, hfold]
    rfl
  unfold loadResolve at hload
  obtain ⟨c2, hc2, hl2⟩ := resolveStore_alookup mibs mibs mibs2 aName cA hload hA
  unfold resolveMibContent at hc2
  cases hro : resolveObjects mibs cA.imports cA.objects with
  | none => rw [hro] at hc2; exact absurd hc2 (by simp)
  | some objs2 =>
    rw [hro] at hc2
    obtain ⟨o2, ho2, hlo2⟩ := resolveObjects_alookup mibs cA.imports cA.objects objs2
      objName o hro hobj
    rw [hobjdef] at ho2
    cases ho2
    unfold lookupObj
    rw [hl2]
    have hc2eq : c2 = ⟨cA.imports, objs2⟩ := by
      simpa using hc2.symm
    rw [hc2eq]
    simpa using hlo2

/-- Store for the C4 witness: a single eligible import resolves O's
syntax to B's definition of Foo's type field. -/
def exStoreC4w : Store :=
  [("A", ⟨[("B", ["Foo"])], [("O", objO)]⟩),
   ("B", ⟨[], [("Foo", ⟨none, none, none, none, none, some tyB⟩)]⟩)]

/-- exStoreC4w after the resolution pass. -/
def exStoreC4wr : Store :=
  [("A", ⟨[("B", ["Foo"])], [("O", ⟨some "objecttype", none, some tyB, none, none, none⟩)]⟩),
   ("B", ⟨[], [("Foo", ⟨none, none, none, none, none, some tyB⟩)]⟩)]

/-- Witness for the amended C4 at a store with one eligible import. -/
theorem c4_import_resolution_amended_witness :
    lookupObj exStoreC4wr "A" "O" = some { objO with syn := some tyB } :=
  (c4_import_resolution_amended exStoreC4w exStoreC4wr "A" "B" "O" "Foo"
    ⟨[("B", ["Foo"])], [("O", objO)]⟩
    ⟨[], [("Foo", ⟨none, none, none, none, none, some tyB⟩)]⟩
    objO ⟨none, none, none, none, none, some tyB⟩ synFoo tyB
    [] [] ["Foo"]
    (by decide) rfl (by decide) (by decide) (by simp)
    (by decide) (by decide) rfl (by simp)
    (by decide) rfl rfl rfl rfl (by decide)).1

/-! Claim C9. -/

theorem find_first_enum_code (code : Int) (lbl : String) (pre post : List (String × Int))
    (hpre : ∀ p ∈ pre, p.2 ≠ code) :
    (pre ++ (lbl, code) :: post).find? (fun ki => pyEqIntFmt ki.2 (.raw (.int code)))
      = some (lbl, code) := by
  induction pre with
  | nil => simp [List.find?, pyEqIntFmt]
  | cons p t ih =>
    have hp : pyEqIntFmt p.2 (FmtVal.raw (.int code)) = false := by
      simp [pyEqIntFmt]
      exact hpre p (List.mem_cons_self p t)
    simp only [List.cons_append, List.find?, hp]
    exact ih (fun q hq => hpre q (List.mem_cons_of_mem p hq))

/-- Claim C9: for a non-bits syntax descriptor, when steps 2-4 of the
field formatter resolve the raw value to v and v exactly equals one of
the enumeration's integer codes (with no earlier entry of the
enumeration carrying that code), the formatter returns the wrapper
{value := v, enumeration := that code's label}. -/
theorem c9_enumeration_wrap (value : RawVal) (ms : SynDesc) (cs : Constraints)
    (pre post : List (String × Int)) (lbl : String) (code : Int)
    (hnb : ms.type.any (fun t => pyLower t == "bits") = false)
    (hres : formatResolve value ms = some (.cont (.raw (.int code))))
    (hcs : ms.constraints = some cs)
    (hen : cs.enumeration = some (pre ++ (lbl, code) :: post))
    (hpre : ∀ p ∈ pre, p.2 ≠ code) :
    formatSnmpField value ms = some (.enum (.raw (.int code)) lbl) := by
  unfold formatSnmpField
  simp only [hres, hcs, hen]
  rw [find_first_enum_code code lbl pre post hpre]

/-- Witness for C9, instantiating the spec example: integer 2 against
enumeration up=1, down=2 yields the wrapper with label down. -/
theorem c9_enumeration_wrap_witness :
    formatSnmpField (.int 2) ⟨some "type", some "Integer32", some ⟨some [("up", 1), ("down", 2)]⟩, []⟩
      = some (.enum (.raw (.int 2)) "down") :=
  c9_enumeration_wrap (.int 2)
    ⟨some "type", some "Integer32", some ⟨some [("up", 1), ("down", 2)]⟩, []⟩
    ⟨some [("up", 1), ("down", 2)]⟩ [("up", 1)] [] "down" 2
    (by decide) (by decide) rfl rfl (by decide)

/-! Index decoder: descriptions of one decoding step used by claims
C5, C6 and C10. -/

/-- The resolved syntax descriptor of an index reference
(self.mibs[module][object]['syntax']). -/
def refSyn (mibs : Store) (r : IndexRef) : Option SynDesc :=
  (lookupObj mibs r.module r.object).bind (fun o => o.syn)

/-- Shape required for an index reference to decode without an uncaught
KeyError: the object resolves, its syntax and class are present, and a
type is present whenever the class is type. -/
def refShapeOk (mibs : Store) (r : IndexRef) : Bool :=
  match refSyn mibs r with
  | some sd => sd.cls.isSome && (sd.cls != some "type" || sd.type.isSome)
  | none => false

/-- The macaddress branch condition of the index loop. -/
def sdIsMac (sd : SynDesc) : Bool :=
  (sd.cls == some "type") && sd.type.any (fun t => pyLower t == "macaddress")

/-- The inetaddress branch condition of the index loop. -/
def sdIsInet (sd : SynDesc) : Bool :=
  (sd.cls == some "type") && sd.type.any (fun t => pyLower t == "inetaddress")

/-- How many dotted components a reference of this resolved syntax
consumes: 6 for macaddress, 4 for inetaddress, 1 otherwise. -/
def sdWidth (sd : SynDesc) : Nat :=
  if sdIsMac sd then 6 else if sdIsInet sd then 4 else 1

/-- The value a successful decoding step assigns at cursor pos: the
hex-concatenated 6 components for macaddress, the dot-joined 4
components for inetaddress, the single int-parsed component otherwise. -/
def decodeOne (comps : List String) (pos : Nat) (sd : SynDesc) : Option FmtVal :=
  if sdIsMac sd then
    (mac_decimal_to_hex (joinDots (sliceRange comps pos 6))).map FmtVal.str
  else if sdIsInet sd then
    some (.str (joinDots (sliceRange comps pos 4)))
  else
    (pyInt? (joinCat (sliceRange comps pos 1))).map (fun (n : Nat) => FmtVal.raw (.int n))

/-- Cursor width consumed by a reference: its resolved width, or 0 when
the reference is skipped because module or object is unknown. -/
def refWidth (mibs : Store) (r : IndexRef) : Nat :=
  match refSyn mibs r with
  | some sd => sdWidth sd
  | none => 0

/-- Cursor position at which the k-th index reference starts: the sum of
the widths of the references before it. -/
def startPosition (mibs : Store) (idxs : List IndexRef) (k : Nat) : Nat :=
  ((idxs.take k).map (refWidth mibs)).sum

/-- A reference whose resolved shape is fine and whose decodeOne value
at pos is v steps as an assignment of v advancing by its width. -/
theorem decodeStep_assign_of_shape (mibs : Store) (mib tbl s : String) (ti : IndexRef)
    (pos : Nat) (sd : SynDesc) (v : FmtVal)
    (hsyn : refSyn mibs ti = some sd)
    (hshape : refShapeOk mibs ti = true)
    (hdec : decodeOne (pySplitDot s) pos sd = some v) :
    decodeStep mibs mib tbl (.str s) ti pos = .assign ti.object v (sdWidth sd) := by
  have hsyn2 := hsyn
  unfold refSyn at hsyn2
  obtain ⟨odef, ho, hos⟩ := Option.bind_eq_some.mp hsyn2
  have hshape2 : (sd.cls.isSome && (sd.cls != some "type" || sd.type.isSome)) = true := by
    unfold refShapeOk at hshape
    rw [hsyn] at hshape
    simpa using hshape
  unfold decodeStep
  unfold decodeOne at hdec
  cases hcls : sd.cls with
  | none => simp [hcls] at hshape2
  | some c =>
    by_cases hct : c = "type"
    · subst hct
      have htype : sd.type.isSome = true := by
        simp [hcls] at hshape2
        simpa using hshape2
      obtain ⟨t, ht⟩ := Option.isSome_iff_exists.mp htype
      by_cases hmac : pyLower t = "macaddress"
      · have hm : sdIsMac sd = true := by simp [sdIsMac, hcls, ht, hmac]
        rw [if_pos hm] at hdec
        obtain ⟨hx, hhx, hv⟩ := Option.map_eq_some'.mp hdec
        simp [ho, hos, hcls, ht, hmac, pySplitVal?, hhx, sdWidth, hm, ← hv]
      · have hm : sdIsMac sd = false := by simp [sdIsMac, hcls, ht, hmac]
        by_cases hinet : pyLower t = "inetaddress"
        · have hi : sdIsInet sd = true := by simp [sdIsInet, hcls, ht, hinet]
          rw [if_neg (by simp [hm]), if_pos hi] at hdec
          injection hdec with hv
          simp [ho, hos, hcls, ht, hmac, hinet, pySplitVal?, sdWidth, hm, hi, ← hv]
        · have hi : sdIsInet sd = false := by simp [sdIsInet, hcls, ht, hinet]
          rw [if_neg (by simp [hm]), if_neg (by simp [hi])] at hdec
          obtain ⟨n, hn, hv⟩ := Option.map_eq_some'.mp hdec
          simp [ho, hos, hcls, ht, hmac, hinet, idxIntStep, pySplitVal?, hn, sdWidth, hm, hi,
            ← hv]
    · have hm : sdIsMac sd = false := by simp [sdIsMac, hcls, hct]
      have hi : sdIsInet sd = false := by simp [sdIsInet, hcls, hct]
      rw [if_neg (by simp [hm]), if_neg (by simp [hi])] at hdec
      obtain ⟨n, hn, hv⟩ := Option.map_eq_some'.mp hdec
      simp [ho, hos, hcls, hct, idxIntStep, pySplitVal?, hn, sdWidth, hm, hi, ← hv]

/-- Whatever branch fires, an assignment step always assigns under the
reference's own object name. -/
theorem decodeStep_assign_key (mibs : Store) (mib tbl : String) (value : RawVal)
    (ti : IndexRef) (pos : Nat) (k : String) (v : FmtVal) (w : Nat)
    (h : decodeStep mibs mib tbl value ti pos = .assign k v w) : k = ti.object := by
  unfold decodeStep idxIntStep idxFailTbl idxFailInt at h
  repeat' split at h
  all_goals simp_all

/-- Bindings for names not assigned by any reference of the list are
untouched by the index loop. -/
theorem decodeIndices_preserve (mibs : Store) (mib tbl : String) (value : RawVal) (x : String) :
    ∀ (idxs : List IndexRef) (pos : Nat) (row res : Row),
      (∀ i ∈ idxs, i.object ≠ x) →
      decodeIndices mibs mib tbl value idxs pos row = some res →
      alookup x res = alookup x row := by
  intro idxs
  induction idxs with
  | nil =>
    intro pos row res _ h
    unfold decodeIndices at h
    cases h
    rfl
  | cons ti rest ih =>
    intro pos row res hx h
    unfold decodeIndices at h
    cases hs : decodeStep mibs mib tbl value ti pos with
    | skip =>
      simp only [hs] at h
      exact ih pos row res (fun i hi => hx i (List.mem_cons_of_mem ti hi)) h
    | assign k v w =>
      simp only [hs] at h
      have hkey : k = ti.object := decodeStep_assign_key mibs mib tbl value ti pos k v w hs
      have hrec := ih (pos + w) (dictSet row k v) res
        (fun i hi => hx i (List.mem_cons_of_mem ti hi)) h
      rw [hrec, hkey, alookup_dictSet_ne row ti.object x v (hx ti (List.mem_cons_self ti rest))]
    | stopOk =>
      simp only [hs] at h
      cases h
      rfl
    | stopCrash => simp [hs] at h

/-- The index loop on a list of resolvable, decodable references with
pairwise distinct object names: it succeeds and assigns, for the k-th
reference, exactly its decodeOne value taken at the cursor position that
is pos plus the summed widths of the references before it. -/
theorem decodeIndices_closed_form (mibs : Store) (mib tbl s : String) :
    ∀ (idxs : List IndexRef) (pos : Nat) (row : Row),
      (∀ r ∈ idxs, refShapeOk mibs r = true) →
      idxs.Pairwise (fun a b => a.object ≠ b.object) →
      (∀ k (hk : k < idxs.length),
        ((refSyn mibs (idxs.get ⟨k, hk⟩)).bind
          (decodeOne (pySplitDot s) (pos + startPosition mibs idxs k))).isSome = true) →
      ∃ res, decodeIndices mibs mib tbl (.str s) idxs pos row = some res ∧
        (∀ k (hk : k < idxs.length),
          alookup (idxs.get ⟨k, hk⟩).object res =
            (refSyn mibs (idxs.get ⟨k, hk⟩)).bind
              (decodeOne (pySplitDot s) (pos + startPosition mibs idxs k))) := by
  intro idxs
  induction idxs with
  | nil =>
    intro pos row _ _ _
    exact ⟨row, rfl, fun k hk => absurd hk (by simp)⟩
  | cons ti rest ih =>
    intro pos row hres hdist hdec
    have hsh : refShapeOk mibs ti = true := hres ti (List.mem_cons_self ti rest)
    have hsd : ∃ sd, refSyn mibs ti = some sd := by
      unfold refShapeOk at hsh
      cases hq : refSyn mibs ti with
      | none => rw [hq] at hsh; simp at hsh
      | some sd => exact ⟨sd, rfl⟩
    obtain ⟨sd, hsd⟩ := hsd
    have h0 := hdec 0 (by simp)
    have hsp0 : startPosition mibs (ti :: rest) 0 = 0 := rfl
    simp only [List.get] at h0
    rw [hsd, hsp0, Nat.add_zero] at h0
    simp only [Option.some_bind] at h0
    obtain ⟨v, hv⟩ := Option.isSome_iff_exists.mp h0
    have hstep := decodeStep_assign_of_shape mibs mib tbl s ti pos sd v hsd hsh hv
    have hw : refWidth mibs ti = sdWidth sd := by unfold refWidth; rw [hsd]
    have hspcons : ∀ k, startPosition mibs (ti :: rest) (k + 1) =
        refWidth mibs ti + startPosition mibs rest k := by
      intro k
      unfold startPosition
      simp [List.take_succ_cons]
    have hdist2 := (List.pairwise_cons.mp hdist).2
    have hobj : ∀ i ∈ rest, i.object ≠ ti.object :=
      fun i hi => ((List.pairwise_cons.mp hdist).1 i hi).symm
    have hdec2 : ∀ k (hk : k < rest.length),
        ((refSyn mibs (rest.get ⟨k, hk⟩)).bind
          (decodeOne (pySplitDot s) ((pos + sdWidth sd) + startPosition mibs rest k))).isSome
          = true := by
      intro k hk
      have := hdec (k + 1) (by simpa using Nat.succ_lt_succ hk)
      simp only [List.get] at this
      rw [hspcons k, hw, ← Nat.add_assoc] at this
      exact this
    obtain ⟨res, hrfl, hmain⟩ := ih (pos + sdWidth sd) (dictSet row ti.object v)
      (fun r hr => hres r (List.mem_cons_of_mem ti hr)) hdist2 hdec2
    refine ⟨res, ?_, ?_⟩
    · unfold decodeIndices
      simp only [hstep]
      exact hrfl
    · intro k hk
      cases k with
      | zero =>
        simp only [List.get]
        rw [hsd, hsp0, Nat.add_zero]
        simp only [Option.some_bind]
        rw [hv]
        have hpres := decodeIndices_preserve mibs mib tbl (.str s) ti.object rest
          (pos + sdWidth sd) (dictSet row ti.object v) res hobj hrfl
        rw [hpres, alookup_dictSet_self]
      | succ k =>
        have hk2 : k < rest.length := by simpa using Nat.lt_of_succ_lt_succ hk
        have := hmain k hk2
        simp only [List.get]
        rw [hspcons k, hw, ← Nat.add_assoc]
        exact this

/-- Claim C5: the index decoder processes the references left to right
with a cursor starting at 0; a macaddress reference consumes the 6
components at the cursor into one concatenated 2-digit-hex string and
advances by 6, an inetaddress reference consumes 4 components joined
with dots and advances by 4, and any other reference consumes 1
component parsed as an integer and advances by 1 — so the k-th reference
is decoded, per decodeOne, at the cursor equal to the summed widths
(6/4/1) of the references before it. -/
theorem c5_index_decoder_cursor (mibs : Store) (mib tbl s : String) (idxs : List IndexRef)
    (row : Row)
    (hres : ∀ r ∈ idxs, refShapeOk mibs r = true)
    (hdist : idxs.Pairwise (fun a b => a.object ≠ b.object))
    (hdec : ∀ k (hk : k < idxs.length),
        ((refSyn mibs (idxs.get ⟨k, hk⟩)).bind
          (decodeOne (pySplitDot s) (startPosition mibs idxs k))).isSome = true) :
    ∃ res, decodeIndices mibs mib tbl (.str s) idxs 0 row = some res ∧
      ∀ k (hk : k < idxs.length),
        alookup (idxs.get ⟨k, hk⟩).object res =
          (refSyn mibs (idxs.get ⟨k, hk⟩)).bind
            (decodeOne (pySplitDot s) (startPosition mibs idxs k)) := by
  have h := decodeIndices_closed_form mibs mib tbl s idxs 0 row hres hdist
    (by simpa [Nat.zero_add] using hdec)
  simpa [Nat.zero_add] using h

/-- Store for the index decoder claims: table T with a MAC-typed and an
integer-typed index field, plus inetaddress and integer fields used by
other examples. -/
def exStoreC5 : Store :=
  [("M", ⟨[], [
    ("T", ⟨none, some "1.2", none, some "row",
      some [⟨"M", "macIdx"⟩, ⟨"M", "intIdx"⟩], none⟩),
    ("macIdx", ⟨none, none, some ⟨some "type", some "MacAddress", none, []⟩, none, none, none⟩),
    ("intIdx", ⟨none, none, some ⟨some "type", some "Integer32", none, []⟩, none, none, none⟩),
    ("ipIdx", ⟨none, none, some ⟨some "type", some "InetAddress", none, []⟩, none, none, none⟩)]⟩)]

/-- Witness for C5, instantiating the spec scenario: raw index
0.26.43.60.77.94.5 against a [mac, int] specification: the MAC field
consumes the first 6 components into 001a2b3c4d5e and the integer field
is decoded from cursor 6, yielding 5. -/
theorem c5_index_decoder_cursor_witness :
    (decodeIndices exStoreC5 "M" "T" (.str "0.26.43.60.77.94.5")
        [⟨"M", "macIdx"⟩, ⟨"M", "intIdx"⟩] 0 []).bind (alookup "macIdx")
      = some (FmtVal.str "001a2b3c4d5e") ∧
    (decodeIndices exStoreC5 "M" "T" (.str "0.26.43.60.77.94.5")
        [⟨"M", "macIdx"⟩, ⟨"M", "intIdx"⟩] 0 []).bind (alookup "intIdx")
      = some (FmtVal.raw (.int 5)) := by
  obtain ⟨res, h1, h2⟩ := c5_index_decoder_cursor exStoreC5 "M" "T" "0.26.43.60.77.94.5"
    [⟨"M", "macIdx"⟩, ⟨"M", "intIdx"⟩] [] (by decide) (by decide) (by decide)
  rw [h1]
  simp only [Option.some_bind]
  exact ⟨(h2 0 (by decide)).trans (by decide), (h2 1 (by decide)).trans (by decide)⟩

/-! Claim C10. -/

/-- Claim C10: an index reference whose module is not loaded, or whose
object is not defined in that module, is silently skipped: nothing is
assigned, nothing is raised, and the cursor is not advanced, so the rest
of the list decodes exactly as if the reference were absent. -/
theorem c10_unresolvable_ref_skipped (mibs : Store) (mib tbl : String) (value : RawVal)
    (r : IndexRef) (hr : lookupObj mibs r.module r.object = none) :
    ∀ (pre post : List IndexRef) (pos : Nat) (row : Row),
      decodeIndices mibs mib tbl value (pre ++ r :: post) pos row =
        decodeIndices mibs mib tbl value (pre ++ post) pos row := by
  have hstep : ∀ pos, decodeStep mibs mib tbl value r pos = .skip := by
    intro pos
    unfold decodeStep
    simp [hr]
  intro pre
  induction pre with
  | nil =>
    intro post pos row
    simp only [List.nil_append]
    conv_lhs => rw [decodeIndices]
    simp [hstep pos]
  | cons p pre2 ih =>
    intro post pos row
    simp only [List.cons_append]
    cases hs : decodeStep mibs mib tbl value p pos with
    | skip =>
      have ha : decodeIndices mibs mib tbl value (p :: (pre2 ++ r :: post)) pos row =
          decodeIndices mibs mib tbl value (pre2 ++ r :: post) pos row := by
        conv_lhs => rw [decodeIndices]
        simp [hs]
      have hb : decodeIndices mibs mib tbl value (p :: (pre2 ++ post)) pos row =
          decodeIndices mibs mib tbl value (pre2 ++ post) pos row := by
        conv_lhs => rw [decodeIndices]
        simp [hs]
      rw [ha, hb]
      exact ih post pos row
    | assign k v w =>
      have ha : decodeIndices mibs mib tbl value (p :: (pre2 ++ r :: post)) pos row =
          decodeIndices mibs mib tbl value (pre2 ++ r :: post) (pos + w) (dictSet row k v) := by
        conv_lhs => rw [decodeIndices]
        simp [hs]
      have hb : decodeIndices mibs mib tbl value (p :: (pre2 ++ post)) pos row =
          decodeIndices mibs mib tbl value (pre2 ++ post) (pos + w) (dictSet row k v) := by
        conv_lhs => rw [decodeIndices]
        simp [hs]
      rw [ha, hb]
      exact ih post (pos + w) (dictSet row k v)
    | stopOk =>
      have ha : decodeIndices mibs mib tbl value (p :: (pre2 ++ r :: post)) pos row = some row := by
        conv_lhs => rw [decodeIndices]
        simp [hs]
      have hb : decodeIndices mibs mib tbl value (p :: (pre2 ++ post)) pos row = some row := by
        conv_lhs => rw [decodeIndices]
        simp [hs]
      rw [ha, hb]
    | stopCrash =>
      have ha : decodeIndices mibs mib tbl value (p :: (pre2 ++ r :: post)) pos row = none := by
        conv_lhs => rw [decodeIndices]
        simp [hs]
      have hb : decodeIndices mibs mib tbl value (p :: (pre2 ++ post)) pos row = none := by
        conv_lhs => rw [decodeIndices]
        simp [hs]
      rw [ha, hb]

/-- Witness for C10: a reference to the unloaded module NOPE is skipped
and the following integer index decodes from the same, unadvanced
cursor. -/
theorem c10_unresolvable_ref_skipped_witness :
    decodeIndices exStoreC5 "M" "T" (.str "5") [⟨"NOPE", "x"⟩, ⟨"M", "intIdx"⟩] 0 [] =
      decodeIndices exStoreC5 "M" "T" (.str "5") [⟨"M", "intIdx"⟩] 0 [] :=
  c10_unresolvable_ref_skipped exStoreC5 "M" "T" (.str "5") ⟨"NOPE", "x"⟩ (by decide)
    [] [⟨"M", "intIdx"⟩] 0 []

/-! Claim C6. -/

/-- Counterexample to C6 as stated. First conjunct: an inetaddress index
with only 2 of the 4 required dotted components does not fail at all —
the short string 1.2 is assigned and the cursor advanced, with nothing
logged and processing continuing — contradicting the claim that
insufficient components are a failure that stops decoding with the field
left absent. Second conjunct: an integer index with a non-numeric
component does fail, but the decoder raises (KeyError from the mistyped
lookup self.mibs[mib]['mib_table'] inside the error handler at cache.py
line 198) instead of logging and not raising. -/
theorem c6_counterexample :
    decodeIndices exStoreC5 "M" "T" (.str "1.2") [⟨"M", "ipIdx"⟩] 0 [] =
      some [("ipIdx", FmtVal.str "1.2")] ∧
    decodeIndices exStoreC5 "M" "T" (.str "x") [⟨"M", "intIdx"⟩] 0 [] = none := by
  refine ⟨by decide, by decide⟩

/-- Claim C6 amended. A macaddress index field that raises while parsing
(a non-numeric or empty component among the up-to-6 consumed ones) is
caught: the decoder logs, stops processing all further index fields, does
not raise, and whatever the earlier references decoded stays in the row
(first conjunct: the whole run equals the run on the prefix before the
failing reference). An integer index field that raises while parsing is
caught, but the handler itself raises KeyError through the mistyped
lookup self.mibs[mib]['mib_table'] unless the MIB defines an object
literally named mib_table with an indices field (second conjunct models
the usual case without such an object: the call raises). Insufficient
components alone are not failures for macaddress (1 to 5 remaining
numeric components yield a short hex string) or inetaddress fields
(which never raise). -/
theorem c6_decode_failure_amended :
    (∀ (mibs : Store) (mib tbl s : String) (bad : IndexRef) (sd : SynDesc) (t : String),
       refSyn mibs bad = some sd → sd.cls = some "type" → sd.type = some t →
       pyLower t = "macaddress" →
       (∀ pos, mac_decimal_to_hex (joinDots (sliceRange (pySplitDot s) pos 6)) = none) →
       ((lookupObj mibs mib tbl).bind (fun o => o.indices)).isSome = true →
       ∀ (pre rest : List IndexRef) (pos : Nat) (row : Row),
         decodeIndices mibs mib tbl (.str s) (pre ++ bad :: rest) pos row =
           decodeIndices mibs mib tbl (.str s) pre pos row) ∧
    (∀ (mibs : Store) (mib tbl s : String) (bad : IndexRef) (sd : SynDesc) (c : String)
       (rest : List IndexRef) (pos : Nat) (row : Row),
       refSyn mibs bad = some sd → sd.cls = some c → c ≠ "type" →
       pyInt? (joinCat (sliceRange (pySplitDot s) pos 1)) = none →
       ((lookupObj mibs mib "mib_table").bind (fun o => o.indices)) = none →
       decodeIndices mibs mib tbl (.str s) (bad :: rest) pos row = none) := by
  constructor
  · intro mibs mib tbl s bad sd t hsyn hcls ht hmac hfail hlog
    obtain ⟨odef, ho, hos⟩ := Option.bind_eq_some.mp hsyn
    have hstep : ∀ pos, decodeStep mibs mib tbl (.str s) bad pos = .stopOk := by
      intro pos
      unfold decodeStep
      simp [ho, hos, hcls, ht, hmac, pySplitVal?, hfail pos, idxFailTbl, hlog]
    intro pre
    induction pre with
    | nil =>
      intro rest pos row
      simp only [List.nil_append]
      conv_lhs => rw [decodeIndices]
      simp [hstep pos, decodeIndices]
    | cons p pre2 ih =>
      intro rest pos row
      simp only [List.cons_append]
      cases hs : decodeStep mibs mib tbl (.str s) p pos with
      | skip =>
        have ha : decodeIndices mibs mib tbl (.str s) (p :: (pre2 ++ bad :: rest)) pos row =
            decodeIndices mibs mib tbl (.str s) (pre2 ++ bad :: rest) pos row := by
          conv_lhs => rw [decodeIndices]
          simp [hs]
        have hb : decodeIndices mibs mib tbl (.str s) (p :: pre2) pos row =
            decodeIndices mibs mib tbl (.str s) pre2 pos row := by
          conv_lhs => rw [decodeIndices]
          simp [hs]
        rw [ha, hb]
        exact ih rest pos row
      | assign k v w =>
        have ha : decodeIndices mibs mib tbl (.str s) (p :: (pre2 ++ bad :: rest)) pos row =
            decodeIndices mibs mib tbl (.str s) (pre2 ++ bad :: rest) (pos + w)
              (dictSet row k v) := by
          conv_lhs => rw [decodeIndices]
          simp [hs]
        have hb : decodeIndices mibs mib tbl (.str s) (p :: pre2) pos row =
            decodeIndices mibs mib tbl (.str s) pre2 (pos + w) (dictSet row k v) := by
          conv_lhs => rw [decodeIndices]
          simp [hs]
        rw [ha, hb]
        exact ih rest (pos + w) (dictSet row k v)
      | stopOk =>
        have ha : decodeIndices mibs mib tbl (.str s) (p :: (pre2 ++ bad :: rest)) pos row =
            some row := by
          conv_lhs => rw [decodeIndices]
          simp [hs]
        have hb : decodeIndices mibs mib tbl (.str s) (p :: pre2) pos row = some row := by
          conv_lhs => rw [decodeIndices]
          simp [hs]
        rw [ha, hb]
      | stopCrash =>
        have ha : decodeIndices mibs mib tbl (.str s) (p :: (pre2 ++ bad :: rest)) pos row =
            none := by
          conv_lhs => rw [decodeIndices]
          simp [hs]
        have hb : decodeIndices mibs mib tbl (.str s) (p :: pre2) pos row = none := by
          conv_lhs => rw [decodeIndices]
          simp [hs]
        rw [ha, hb]
  · intro mibs mib tbl s bad sd c rest pos row hsyn hcls hct hfail hmibtbl
    obtain ⟨odef, ho, hos⟩ := Option.bind_eq_some.mp hsyn
    have hstep : decodeStep mibs mib tbl (.str s) bad pos = .stopCrash := by
      unfold decodeStep
      simp [ho, hos, hcls, hct, idxIntStep, pySplitVal?, hfail, idxFailInt, hmibtbl]
    conv_lhs => rw [decodeIndices]
    simp [hstep]

/-- Witness for the amended C6: over the raw value 7.x a MAC index field
fails at every cursor (the non-numeric component x), so the run on
[int, mac, ip] equals the run on [int] alone: the integer field decoded
before the failure remains and everything from the failing field on is
dropped, with no exception raised. -/
theorem c6_decode_failure_amended_witness :
    decodeIndices exStoreC5 "M" "T" (.str "7.x")
      [⟨"M", "intIdx"⟩, ⟨"M", "macIdx"⟩, ⟨"M", "ipIdx"⟩] 0 [] =
      some [("intIdx", FmtVal.raw (.int 7))] := by
  have h := c6_decode_failure_amended.1 exStoreC5 "M" "T" "7.x" ⟨"M", "macIdx"⟩
    ⟨some "type", some "MacAddress", none, []⟩ "MacAddress" (by decide) rfl rfl (by decide)
    (fun pos => by
      match pos with
      | 0 => decide
      | 1 => decide
      | (n + 2) =>
        have hlen : (pySplitDot "7.x").length = 2 := by decide
        have hempty : sliceRange (pySplitDot "7.x") (n + 2) 6 = [] := by
          unfold sliceRange
          rw [List.drop_eq_nil_of_le (by rw [hlen]; omega)]
          rfl
        rw [hempty]
        decide)
    (by decide) [⟨"M", "intIdx"⟩] [⟨"M", "ipIdx"⟩] 0 []
  simp only [List.cons_append, List.nil_append] at h
  rw [h]
  decide

end SnmpModel
